import Mathlib

/-!
A shallow embedding of `main.go` of mackerel-plugin-sendgrid.

The plugin has two operations, `SendgridPlugin.FetchMetrics` and
`SendgridPlugin.GraphDefinition`.  Both are embedded below as pure functions.
Everything the Go code obtains from its surroundings (the wall clock, the HTTP
round trip, the JSON decoder of `encoding/json`, the title caser of
`golang.org/x/text/cases`) is an explicit argument.

Go values are represented as follows.

* `string` and `[]byte` are `String`.
* `int` is `Int`; the 64-bit range is stated where it matters.
* `error` is `GoError`, the text of the error; a nil error is `none`.
* `map[string]T` is an association list with distinct keys (`AList`); the order
  of its entries is the order in which a `range` loop visits them, so a
  statement proved for every `AList` holds for every iteration order.
  A nil map that is returned is `none`.
* A `float64` that is the result of converting an `int` is an integer; it is
  represented by the integer it denotes (`Float64.val`).
-/

namespace Sendgrid

/-! ## Go values -/

/-- The text of a Go `error` value. -/
abbrev GoError := String

/-- A Go `map[string]T`. -/
abbrev GoMap (α : Type) := AList (fun _ : String => α)

/-- A `float64` value that denotes an integer, given by that integer. -/
structure Float64 where
  val : Int
  deriving DecidableEq, Repr

/-- Number of binary digits of `n`, for `n < 2 ^ fuel`. -/
def bitLenAux : Nat → Nat → Nat
  | 0, _ => 0
  | fuel + 1, n => if n = 0 then 0 else bitLenAux fuel (n / 2) + 1

/-- Number of binary digits of a magnitude that fits in 64 bits. -/
def bitLen (n : Nat) : Nat := bitLenAux 64 n

/-- Round a magnitude below `2 ^ 64` to the nearest number with a 53-bit
significand, ties to even: the rounding a conversion to `float64` performs. -/
def roundMagnitude (n : Nat) : Nat :=
  if bitLen n ≤ 53 then n
  else
    let shift := bitLen n - 53
    let q := n / 2 ^ shift
    let r := n % 2 ^ shift
    let half := 2 ^ (shift - 1)
    let q1 := if half < r ∨ (r = half ∧ q % 2 = 1) then q + 1 else q
    q1 * 2 ^ shift

/-- The Go conversion `float64(v)` of an `int` (64-bit). -/
def float64 (v : Int) : Float64 :=
  if v < 0 then ⟨-((roundMagnitude (-v).toNat : Nat) : Int)⟩
  else ⟨((roundMagnitude v.toNat : Nat) : Int)⟩

/-! ## Data model (`main.go` lines 19-42) -/

/-- The constant `endpoint`. -/
def endpoint : String := "https://api.sendgrid.com/v3/stats"

/-- The function `userAgent`; the package variable `version` is an argument. -/
def userAgent (version : String) : String :=
  "mackerel-plugin-sendgrid/" ++ version

/-- The struct `SendgridStat`. -/
structure SendgridStat where
  Metrics : GoMap Int

/-- The struct `SendgridStats`. -/
structure SendgridStats where
  Stats : List SendgridStat

/-- The struct `SendgridPlugin`. -/
structure SendgridPlugin where
  Prefix : String
  SendgridAPIKey : String

/-! ## The wall clock (`time.Time`) -/

/-- A `*time.Location`: the offset from UTC, in seconds east of Greenwich, that
is in effect at a Unix instant. -/
structure Location where
  offset : Int → Int

/-- The location `time.UTC`. -/
def UTC : Location := ⟨fun _ => 0⟩

/-- A `time.Time`: seconds and nanoseconds since 1970-01-01T00:00:00Z, and the
location in which the instant is displayed. -/
structure Time where
  sec : Int
  nsec : Fin 1000000000
  loc : Location

/-- The constant `time.Hour`, a `time.Duration` in nanoseconds. -/
def Hour : Int := 3600 * 1000000000

/-- The method `Time.Add`: whole seconds and the remainder of the duration are
added separately and the nanoseconds are normalised. -/
def Time.Add (t : Time) (d : Int) : Time :=
  let dsec := Int.tdiv d 1000000000
  let nsec := (t.nsec.val : Int) + Int.tmod d 1000000000
  if 1000000000 ≤ nsec then
    ⟨t.sec + dsec + 1, ⟨(nsec - 1000000000).toNat % 1000000000, Nat.mod_lt _ (by decide)⟩, t.loc⟩
  else if nsec < 0 then
    ⟨t.sec + dsec - 1, ⟨(nsec + 1000000000).toNat % 1000000000, Nat.mod_lt _ (by decide)⟩, t.loc⟩
  else
    ⟨t.sec + dsec, ⟨nsec.toNat % 1000000000, Nat.mod_lt _ (by decide)⟩, t.loc⟩

/-- The number of the local calendar day of `t`: whole days between 1970-01-01
and the date the clock of the location shows at the instant. -/
def Time.localDay (t : Time) : Int :=
  (t.sec + t.loc.offset t.sec) / 86400

/-- Whether a year of the Gregorian calendar is a leap year. -/
def isLeap (year : Int) : Bool :=
  year % 4 = 0 && (year % 100 ≠ 0 || year % 400 = 0)

/-- The year of the day that lies `days` days after 1970-01-01, and the number
of that day within its year, counted from zero.  Days are counted from
0001-01-01 and split into cycles of 400, 100, 4 and 1 years; the last cycle of
each kind is one day longer, which the two corrections `n - n / 4` cut off. -/
def yearDay (days : Int) : Int × Int :=
  let d := days + 719162
  let n400 := d / 146097
  let d := d % 146097
  let n100 := d / 36524
  let n100 := n100 - n100 / 4
  let d := d - 36524 * n100
  let n4 := d / 1461
  let d := d - 1461 * n4
  let n1 := d / 365
  let n1 := n1 - n1 / 4
  (400 * n400 + 100 * n100 + 4 * n4 + n1 + 1, d - 365 * n1)

/-- The table `daysBefore`: days of a non-leap year before the start of the
month with the given index, counted from zero. -/
def daysBefore (m : Int) : Int :=
  match m.toNat with
  | 0 => 0 | 1 => 31 | 2 => 59 | 3 => 90 | 4 => 120 | 5 => 151 | 6 => 181
  | 7 => 212 | 8 => 243 | 9 => 273 | 10 => 304 | 11 => 334 | _ => 365

/-- Month and day of the month of the day number `yday` of a year. -/
def monthDay (leap : Bool) (yday : Int) : Int × Int :=
  if leap = true ∧ yday = 31 + 29 - 1 then (2, 29)
  else
    let day := if leap = true ∧ yday > 31 + 29 - 1 then yday - 1 else yday
    let month := day / 31
    let e := daysBefore (month + 1)
    if day ≥ e then (month + 2, day - e + 1)
    else (month + 1, day - daysBefore month + 1)

/-- The proleptic Gregorian date (year, month, day) of the day that lies `days`
days after 1970-01-01. -/
def civil (days : Int) : Int × Int × Int :=
  let yd := yearDay days
  let md := monthDay (isLeap yd.1) yd.2
  (yd.1, md.1, md.2)

/-- The method `Time.Date`: year, month and day in the location of `t`. -/
def Time.Date (t : Time) : Int × Int × Int := civil t.localDay

/-- The decimal digit character of `n % 10`. -/
def digit (n : Nat) : Char := Char.ofNat (48 + n % 10)

/-- The helper `appendInt` of package `time`: the decimal form of `x`, padded
with zeros on the left to at least `width` digits, after a minus sign when `x`
is negative. -/
def appendInt (x : Int) (width : Nat) : List Char :=
  let u := x.natAbs
  let sign := if x < 0 then [Char.ofNat 45] else []
  if width = 2 ∧ u < 100 then
    sign ++ [digit (u / 10), digit u]
  else if width = 4 ∧ u < 10000 then
    sign ++ [digit (u / 1000), digit (u / 100), digit (u / 10), digit u]
  else
    let ds := (Nat.repr u).data
    sign ++ List.replicate (width - ds.length) (Char.ofNat 48) ++ ds

/-- The call `t.Format("2006-01-02")`: the year in a field of width four, a
hyphen, the month in a field of width two, a hyphen, the day in a field of
width two. -/
def Time.Format (t : Time) : String :=
  let (y, m, d) := t.Date
  String.mk (appendInt y 4 ++ Char.ofNat 45 :: appendInt m 2 ++ Char.ofNat 45 :: appendInt d 2)

/-! ## The request (`net/url`, `net/http`) -/

/-- A `url.Values`: keys with their lists of values, in insertion order. -/
abbrev Values := List (String × List String)

/-- The method `Values.Add`: append the value to the list stored under the key. -/
def Values.Add : Values → String → String → Values
  | [], key, value => [(key, [value])]
  | (k, vs) :: rest, key, value =>
    if k = key then (k, vs ++ [value]) :: rest else (k, vs) :: Values.Add rest key value

/-- Upper-case hexadecimal digit of `n % 16`. -/
def upperhex (n : Nat) : Char :=
  if n % 16 < 10 then Char.ofNat (48 + n % 16) else Char.ofNat (55 + n % 16)

/-- The function `url.QueryEscape`: letters, digits, hyphen, underscore, full
stop and tilde are kept, a space becomes a plus sign, every other byte of the
UTF-8 form is written as a percent sign and two hexadecimal digits. -/
def QueryEscape (s : String) : String :=
  String.mk (s.data.flatMap fun c =>
    if c.isAlphanum ∨ c = Char.ofNat 45 ∨ c = Char.ofNat 95 ∨ c = Char.ofNat 46
        ∨ c = Char.ofNat 126 then [c]
    else if c = Char.ofNat 32 then [Char.ofNat 43]
    else (String.utf8EncodeChar c).flatMap fun b =>
      [Char.ofNat 37, upperhex (b.toNat / 16), upperhex b.toNat])

/-- The order `<` of Go strings: lexicographic by byte, which for UTF-8 text is
lexicographic by code point. -/
def stringLess : List Char → List Char → Bool
  | _, [] => false
  | [], _ :: _ => true
  | a :: as, b :: bs => decide (a.toNat < b.toNat) || (decide (a = b) && stringLess as bs)

/-- The method `Values.Encode`: the keys in sorted order, each value written as
`key=value` with both sides escaped, joined by ampersands. -/
def Values.Encode (v : Values) : String :=
  let sorted := v.insertionSort (fun a b => stringLess b.1.data a.1.data = false)
  let pairs := sorted.flatMap fun kv => kv.2.map fun x => QueryEscape kv.1 ++ "=" ++ QueryEscape x
  "&".intercalate pairs

/-- The fields of a `url.URL` that the plugin uses. -/
structure URL where
  Scheme : String
  Host : String
  Path : String
  RawQuery : String

/-- The method `URL.String` for a URL with scheme, host and path. -/
def URL.String (u : URL) : String :=
  u.Scheme ++ "://" ++ u.Host ++ u.Path ++ (if u.RawQuery = "" then "" else "?" ++ u.RawQuery)

/-- The value `url.Parse(endpoint)` returns; the parse of this constant does not
fail, so the error branch of lines 48-51 is not taken. -/
def parsedEndpoint : URL := ⟨"https", "api.sendgrid.com", "/v3/stats", ""⟩

/-- The fields of an `http.Request` that the plugin sets.  `Header.Set` stores
a header under the canonical form of its name. -/
structure Request where
  Method : String
  URL : String
  Header : List (String × String)

/-- The fields of an `http.Response` that the plugin reads.  `Body` is the
outcome of reading the body stream to its end. -/
structure Response where
  StatusCode : Int
  Body : Except GoError String

/-- The query built on lines 53-56 for the clock reading `now`. -/
def query (now : Time) : Values :=
  let date := now.Add (-24 * Hour)
  let q : Values := []
  let q := q.Add "start_date" date.Format
  q.Add "end_date" date.Format

/-- The request built on lines 47-67 for the clock reading `now`.
`http.NewRequest` does not fail for the method `GET` and a URL that parses. -/
def newRequest (version : String) (now : Time) (s : SendgridPlugin) : Request :=
  let api : URL := ⟨parsedEndpoint.Scheme, parsedEndpoint.Host, parsedEndpoint.Path,
    (query now).Encode⟩
  ⟨"GET", api.String,
    [("User-Agent", userAgent version),
     ("Authorization", "Bearer " ++ s.SendgridAPIKey),
     ("Content-Type", "application/json")]⟩

/-! ## `FetchMetrics` (`main.go` lines 44-112) -/

/-- The verb `%d` of package `fmt` applied to an `int`. -/
def fmtD (n : Int) : String :=
  if n < 0 then "-" ++ Nat.repr n.natAbs else Nat.repr n.natAbs

/-- What `FetchMetrics` obtains from its surroundings: the package variable
`version`, the reading of `time.Now()`, the round trip `client.Do`, and
`json.Unmarshal` into a `[]SendgridStats`, which returns the slice it has
filled together with its error. -/
structure World where
  version : String
  Now : Time
  Do : Request → Except GoError Response
  Unmarshal : String → List SendgridStats × Option GoError

/-- The loop of lines 105-109: every entry of the map is stored, converted,
in a fresh map. -/
def convert (m : GoMap Int) : GoMap Float64 :=
  m.entries.foldl (fun acc kv => acc.insert kv.1 (float64 kv.2)) ∅

/-- The method `SendgridPlugin.FetchMetrics`.  The result is the pair the Go
function returns: the map (`none` for nil) and the error (`none` for nil). -/
def SendgridPlugin.FetchMetrics (s : SendgridPlugin) (w : World) :
    Option (GoMap Float64) × Option GoError :=
  match w.Do (newRequest w.version w.Now s) with
  | .error err => (none, some err)
  | .ok resp =>
    if resp.StatusCode ≠ 200 then
      match resp.Body with
      | .error err => (none, some err)
      | .ok body =>
        (none, some ("Sendgrid returns status " ++ fmtD resp.StatusCode ++ ": " ++ body))
    else
      match resp.Body with
      | .error err => (none, some err)
      | .ok body =>
        match w.Unmarshal body with
        | (_, some err) => (none, some err)
        | (stats, none) =>
          match stats with
          | [] => (none, none)
          | day :: _ =>
            match day.Stats with
            | [] => (none, none)
            | stat :: _ => (some (convert stat.Metrics), none)

/-! ## `GraphDefinition` (`main.go` lines 114-144) -/

/-- The fields of `mp.Metrics` that the plugin sets. -/
structure Metrics where
  Name : String
  Label : String
  deriving DecidableEq, Repr

/-- The fields of `mp.Graphs` that the plugin sets. -/
structure Graphs where
  Label : String
  Unit : String
  Metrics : List Metrics
  deriving DecidableEq, Repr

/-- The constant `mp.UnitInteger`. -/
def UnitInteger : String := "integer"

/-- The method `SendgridPlugin.MetricKeyPrefix`. -/
def SendgridPlugin.MetricKeyPrefix (s : SendgridPlugin) : String := s.Prefix

/-- The method `SendgridPlugin.GraphDefinition`.  The argument `title` is the
function `cases.Title(language.English).String`. -/
def SendgridPlugin.GraphDefinition (s : SendgridPlugin) (title : String → String) :
    GoMap Graphs :=
  let pfx := title s.MetricKeyPrefix
  AList.singleton "global"
    ⟨pfx, UnitInteger,
      [⟨"bounce_drops", "BounceDrops"⟩,
       ⟨"bounces", "Bounces"⟩,
       ⟨"clicks", "Clicks"⟩,
       ⟨"deferred", "Deferred"⟩,
       ⟨"delivered", "Delivered"⟩,
       ⟨"invalid_emails", "InvalidEmails"⟩,
       ⟨"opens", "Opens"⟩,
       ⟨"processed", "Processed"⟩,
       ⟨"requests", "Requests"⟩,
       ⟨"spam_report_drops", "SpamReportDrops"⟩,
       ⟨"spam_reports", "SpamReports"⟩,
       ⟨"unique_clicks", "UniqueClicks"⟩,
       ⟨"unique_opens", "UniqueOpens"⟩,
       ⟨"unsubscribe_drops", "UnsubscribeDrops"⟩,
       ⟨"unsubscribes", "Unsubscribes"⟩]⟩

/-! ## The title caser (`golang.org/x/text/cases`)

The caser is a library outside the repository; `GraphDefinition` takes it as an
argument.  What it does on ASCII text is written out here, over a type that
holds ASCII characters only.  The classes of the ASCII characters are: letters
are cased; letters, digits and the underscore continue a word; apostrophe, full
stop and colon may stand inside a word; every other character ends the word. -/

/-- An ASCII character. -/
abbrev AsciiChar := {c : Char // c.toNat < 128}

/-- The space character. -/
def space : AsciiChar := ⟨Char.ofNat 32, by decide⟩

/-- The characters of a text, when all of them are ASCII. -/
def asciiText : List Char → Option (List AsciiChar)
  | [] => some []
  | c :: cs =>
    if h : c.toNat < 128 then (asciiText cs).map (fun t => ⟨c, h⟩ :: t) else none

/-- A cased ASCII character: a letter. -/
def isCased (c : AsciiChar) : Bool := c.val.isAlpha

/-- An ASCII character that may stand in the middle of a word: apostrophe, full
stop, colon. -/
def isMid (c : AsciiChar) : Bool :=
  c.val = Char.ofNat 39 || c.val = Char.ofNat 46 || c.val = Char.ofNat 58

/-- An ASCII character that ends a word: neither a letter, a digit or an
underscore, nor a middle character. -/
def isBreak (c : AsciiChar) : Bool :=
  !(c.val.isAlphanum || c.val = Char.ofNat 95 || isMid c)

/-- The loop of the title caser on ASCII characters.  `isMidWord` tells whether
a cased character of the current word has been seen, `wasMid` whether the
previous character was a middle character.  The first cased character of a word
is mapped to title case, every later cased character of the word to lower case,
everything else is copied. -/
def titleLoop : Bool → Bool → List AsciiChar → List Char
  | _, _, [] => []
  | isMidWord, wasMid, c :: cs =>
    let isMidWord := if wasMid && isMid c then false else isMidWord
    if isCased c then
      (if isMidWord then c.val.toLower else c.val.toUpper) :: titleLoop true (isMid c) cs
    else
      c.val :: titleLoop (if isBreak c then false else isMidWord) (isMid c) cs

/-- What `cases.Title(language.English).String` returns for an ASCII text. -/
def titleASCII (cs : List AsciiChar) : String := String.mk (titleLoop false false cs)

/-- The function `title` returns on every ASCII text what the title caser of
the library returns there.  Nothing is asked of it on other text. -/
def agreesOnASCII (title : String → String) : Prop :=
  ∀ (p : String) (cs : List AsciiChar), asciiText p.data = some cs → title p = titleASCII cs

/-! ## Sample surroundings, used to instantiate the theorems -/

/-- Keys of a returned map; a nil map has none. -/
def resultKeys (r : Option (GoMap Float64)) : List String :=
  match r with
  | none => []
  | some m => m.keys

/-- The instant 2023-11-05T06:00:00Z, displayed in UTC. -/
def sampleTime : Time := ⟨1699164000, 0, UTC⟩

/-- Surroundings in which every request is answered by `resp` and every body
decodes to `decoded`. -/
def worldWith (resp : Response) (decoded : List SendgridStats × Option GoError) : World :=
  ⟨"0.0.1", sampleTime, fun _ => .ok resp, fun _ => decoded⟩

/-- The map of the example `"opens": 42, "clicks": 7`. -/
def sampleMetrics : GoMap Int := AList.insert "opens" 42 (AList.insert "clicks" 7 ∅)

/-- A plugin value with the default prefix. -/
def samplePlugin : SendgridPlugin := ⟨"sendgrid", "SG.key"⟩

/-- The map of `sampleMetrics`, visited in the other order. -/
def sampleMetricsSwapped : GoMap Int := AList.insert "clicks" 7 (AList.insert "opens" 42 ∅)

/-- The location of New York in 2023: four hours behind UTC from
2023-03-12T07:00:00Z until 2023-11-05T06:00:00Z, five hours behind otherwise. -/
def newYork : Location :=
  ⟨fun sec => if 1678604400 ≤ sec ∧ sec < 1699164000 then -14400 else -18000⟩

/-- The ASCII characters of a text; no characters when the text is not ASCII. -/
def codesOf (s : String) : List AsciiChar := (asciiText s.data).getD []

/-- A function that meets `agreesOnASCII`, to instantiate theorems about every
such function.  It returns other text unchanged, which says nothing about the
library. -/
def sampleCaser (p : String) : String :=
  match asciiText p.data with
  | some cs => titleASCII cs
  | none => p

/-! ## Notions used in the statements -/

/-- The label of the group `global`. -/
def globalLabel (s : SendgridPlugin) (title : String → String) : Option String :=
  ((s.GraphDefinition title).lookup "global").map Graphs.Label

/-- Whether the letter at position `i` of `p` continues a word: an earlier
letter stands before it, and between the two no character ends a word and no
two middle characters stand next to each other. -/
def continuesWord (p : List AsciiChar) (i : Nat) : Bool :=
  decide (∃ j, j < i ∧ isCased (p.getD j space) = true ∧
    ∀ k, k < i → j < k → isBreak (p.getD k space) = false ∧
      ¬ (isMid (p.getD (k - 1) space) = true ∧ isMid (p.getD k space) = true))

/-- The character at position `i` of `p` after casing: a letter that does not
continue a word, the first letter of its word, is mapped to upper case; a
letter that continues a word is mapped by `rest`; every other character is
kept. -/
def casedAt (rest : Char → Char) (p : List AsciiChar) (i : Nat) : Char :=
  if isCased (p.getD i space) = true then
    (if continuesWord p i = true then rest (p.getD i space).val
     else (p.getD i space).val.toUpper)
  else (p.getD i space).val

/-- The wording of the specification, "the first letter of each word
capitalized": the first letter of each word is mapped to upper case and every
other character is kept. -/
def capitalizeWords (p : List AsciiChar) : String :=
  String.mk ((List.range p.length).map (casedAt id p))

/-- Title casing: the first letter of each word is mapped to upper case, every
other letter to lower case, and every other character is kept. -/
def titleCaseWords (p : List AsciiChar) : String :=
  String.mk ((List.range p.length).map (casedAt Char.toLower p))

/-- The form `YYYY-MM-DD`: the four decimal digits of the year, the two of the
month and the two of the day, joined by hyphens. -/
def renderYMD (y m d : Nat) : String :=
  String.mk [digit (y / 1000), digit (y / 100), digit (y / 10), digit y, '-',
    digit (m / 10), digit m, '-', digit (d / 10), digit d]

/-- Whether a string consists of four digits, a hyphen, two digits, a hyphen and
two digits. -/
def isYMD (s : String) : Bool :=
  match s.data with
  | [a, b, c, d, e, f, g, h, i, j] =>
    a.isDigit && b.isDigit && c.isDigit && d.isDigit && e = '-' && f.isDigit && g.isDigit
      && h = '-' && i.isDigit && j.isDigit
  | _ => false

/-! ## Lemmas on the conversion loop -/

theorem lookup_foldl_insert (l : List (Sigma fun _ : String => Int)) (h : l.NodupKeys)
    (acc : GoMap Float64) (k : String) :
    (l.foldl (fun acc kv => acc.insert kv.1 (float64 kv.2)) acc).lookup k =
      match l.dlookup k with
      | some v => some (float64 v)
      | none => acc.lookup k := by
  induction l generalizing acc with
  | nil => simp
  | cons e t ih =>
    obtain ⟨a, b⟩ := e
    have ht : t.NodupKeys := (List.nodupKeys_cons.1 h).2
    have ha : a ∉ t.keys := (List.nodupKeys_cons.1 h).1
    rw [List.foldl_cons, ih ht]
    by_cases hk : k = a
    · subst hk
      have hnone : t.dlookup k = none := List.dlookup_eq_none.2 ha
      simp [hnone, AList.lookup_insert]
    · have hne : List.dlookup k (⟨a, b⟩ :: t) = List.dlookup k t :=
        List.dlookup_cons_ne t ⟨a, b⟩ hk
      rw [hne, AList.lookup_insert_ne hk]

theorem lookup_convert (m : GoMap Int) (k : String) :
    (convert m).lookup k = (m.lookup k).map float64 := by
  unfold convert
  rw [lookup_foldl_insert _ m.nodupKeys]
  show _ = Option.map float64 (m.entries.dlookup k)
  cases m.entries.dlookup k <;> simp

theorem mem_convert (m : GoMap Int) (k : String) : k ∈ convert m ↔ k ∈ m := by
  rw [← AList.lookup_isSome, ← AList.lookup_isSome, lookup_convert]
  cases m.lookup k <;> simp

theorem keys_convert_perm (m : GoMap Int) : (convert m).keys.Perm m.keys := by
  rw [List.perm_ext_iff_of_nodup (AList.keys_nodup _) (AList.keys_nodup _)]
  intro k
  rw [← AList.mem_keys, ← AList.mem_keys]
  exact mem_convert m k

/-! ## `FetchMetrics`: the outcomes -/

/-- Claim C1.  When the round trip answers with status 200, the body is read
and decodes without error to an array whose first element has a non-empty stats
list, `FetchMetrics` returns a nil error and a map with exactly the keys of
`stats[0].Stats[0].Metrics` (as many keys, the same keys, catalogued or not),
and the value at each key is `float64` of the integer stored there. -/
theorem fetchMetrics_first_entry (s : SendgridPlugin) (w : World) (resp : Response)
    (body : String) (day : SendgridStats) (days : List SendgridStats)
    (stat : SendgridStat) (rest : List SendgridStat)
    (hdo : w.Do (newRequest w.version w.Now s) = .ok resp)
    (hstatus : resp.StatusCode = 200)
    (hbody : resp.Body = .ok body)
    (hdec : w.Unmarshal body = (day :: days, none))
    (hday : day.Stats = stat :: rest) :
    ∃ m : GoMap Float64, s.FetchMetrics w = (some m, none)
      ∧ m.keys.Perm stat.Metrics.keys
      ∧ (∀ k, k ∈ m ↔ k ∈ stat.Metrics)
      ∧ (∀ k v, stat.Metrics.lookup k = some v → m.lookup k = some (float64 v))
      ∧ (∀ k, m.lookup k = (stat.Metrics.lookup k).map float64) := by
  refine ⟨convert stat.Metrics, ?_, keys_convert_perm _, mem_convert _, ?_, lookup_convert _⟩
  · simp [SendgridPlugin.FetchMetrics, hdo, hstatus, hbody, hdec, hday]
  · intro k v hv
    rw [lookup_convert, hv]
    rfl

/-- Instance of C1: metrics `"opens": 42, "clicks": 7` give the map with
`"opens": 42.0` and `"clicks": 7.0` and no other key, also with a second stat
entry and a second day present. -/
theorem fetchMetrics_first_entry_witness :
    (∃ m : GoMap Float64,
      samplePlugin.FetchMetrics
          (worldWith ⟨200, .ok "body"⟩
            ([⟨[⟨sampleMetrics⟩, ⟨AList.singleton "opens" 1⟩]⟩, ⟨[]⟩], none)) = (some m, none)
      ∧ m.keys.Perm sampleMetrics.keys
      ∧ (∀ k, k ∈ m ↔ k ∈ sampleMetrics)
      ∧ (∀ k v, sampleMetrics.lookup k = some v → m.lookup k = some (float64 v))
      ∧ (∀ k, m.lookup k = (sampleMetrics.lookup k).map float64))
    ∧ (samplePlugin.FetchMetrics
          (worldWith ⟨200, .ok "body"⟩
            ([⟨[⟨sampleMetrics⟩, ⟨AList.singleton "opens" 1⟩]⟩, ⟨[]⟩], none))).1.map AList.entries
        = some [⟨"clicks", ⟨7⟩⟩, ⟨"opens", ⟨42⟩⟩]
    ∧ (samplePlugin.FetchMetrics
          (worldWith ⟨200, .ok "body"⟩
            ([⟨[⟨sampleMetrics⟩, ⟨AList.singleton "opens" 1⟩]⟩, ⟨[]⟩], none))).2 = none :=
  ⟨fetchMetrics_first_entry samplePlugin
      (worldWith ⟨200, .ok "body"⟩
        ([⟨[⟨sampleMetrics⟩, ⟨AList.singleton "opens" 1⟩]⟩, ⟨[]⟩], none))
      ⟨200, .ok "body"⟩ "body" ⟨[⟨sampleMetrics⟩, ⟨AList.singleton "opens" 1⟩]⟩ [⟨[]⟩]
      ⟨sampleMetrics⟩ [⟨AList.singleton "opens" 1⟩] rfl rfl rfl rfl rfl,
   by decide, by decide⟩

/-- Claim C2.  When the round trip answers with status 200, the body is read
and decodes without error to an empty array, or to an array whose first element
has an empty stats list (an absent list decodes to the empty one), `FetchMetrics`
returns a nil error and the nil map, which has no keys, whatever the later
elements of the array contain. -/
theorem fetchMetrics_no_stats (s : SendgridPlugin) (w : World) (resp : Response)
    (body : String) (stats : List SendgridStats)
    (hdo : w.Do (newRequest w.version w.Now s) = .ok resp)
    (hstatus : resp.StatusCode = 200)
    (hbody : resp.Body = .ok body)
    (hdec : w.Unmarshal body = (stats, none))
    (hempty : stats = [] ∨ ∃ day days, stats = day :: days ∧ day.Stats = []) :
    s.FetchMetrics w = (none, none)
      ∧ (s.FetchMetrics w).2 = none
      ∧ resultKeys (s.FetchMetrics w).1 = [] := by
  have h : s.FetchMetrics w = (none, none) := by
    rcases hempty with h | ⟨day, days, h, hday⟩
    · subst h
      simp [SendgridPlugin.FetchMetrics, hdo, hstatus, hbody, hdec]
    · subst h
      simp [SendgridPlugin.FetchMetrics, hdo, hstatus, hbody, hdec, hday]
  rw [h]
  exact ⟨rfl, rfl, rfl⟩

/-- Instance of C2: a first day without stats, followed by a day with metrics. -/
theorem fetchMetrics_no_stats_witness :
    samplePlugin.FetchMetrics (worldWith ⟨200, .ok "body"⟩ ([⟨[]⟩, ⟨[⟨sampleMetrics⟩]⟩], none))
        = (none, none)
      ∧ (samplePlugin.FetchMetrics
          (worldWith ⟨200, .ok "body"⟩ ([⟨[]⟩, ⟨[⟨sampleMetrics⟩]⟩], none))).2 = none
      ∧ resultKeys (samplePlugin.FetchMetrics
          (worldWith ⟨200, .ok "body"⟩ ([⟨[]⟩, ⟨[⟨sampleMetrics⟩]⟩], none))).1 = [] :=
  fetchMetrics_no_stats samplePlugin
    (worldWith ⟨200, .ok "body"⟩ ([⟨[]⟩, ⟨[⟨sampleMetrics⟩]⟩], none))
    ⟨200, .ok "body"⟩ "body" [⟨[]⟩, ⟨[⟨sampleMetrics⟩]⟩] rfl rfl rfl rfl
    (Or.inr ⟨⟨[]⟩, [⟨[⟨sampleMetrics⟩]⟩], rfl, rfl⟩)

/-- Claim C3.  When the round trip answers with a status other than 200 and the
body is read in full, `FetchMetrics` returns the nil map and the error whose
text is `Sendgrid returns status `, the status in decimal, `: ` and the body;
the text contains the decimal status and the body, and the result is the same
for every decoder, so the body is not decoded. -/
theorem fetchMetrics_bad_status (s : SendgridPlugin) (w : World) (resp : Response)
    (body : String)
    (hdo : w.Do (newRequest w.version w.Now s) = .ok resp)
    (hstatus : resp.StatusCode ≠ 200)
    (hbody : resp.Body = .ok body) :
    ∃ text : String, s.FetchMetrics w = (none, some text)
      ∧ text = "Sendgrid returns status " ++ fmtD resp.StatusCode ++ ": " ++ body
      ∧ (fmtD resp.StatusCode).data <:+: text.data
      ∧ body.data <:+: text.data
      ∧ ∀ u : String → List SendgridStats × Option GoError,
          s.FetchMetrics ⟨w.version, w.Now, w.Do, u⟩ = (none, some text) := by
  refine ⟨"Sendgrid returns status " ++ fmtD resp.StatusCode ++ ": " ++ body, ?_, rfl, ?_, ?_, ?_⟩
  · simp [SendgridPlugin.FetchMetrics, hdo, hstatus, hbody]
  · refine ⟨"Sendgrid returns status ".data, (": " ++ body).data, ?_⟩
    simp [String.data_append, List.append_assoc]
  · refine ⟨("Sendgrid returns status " ++ fmtD resp.StatusCode ++ ": ").data, [], ?_⟩
    simp [String.data_append, List.append_assoc]
  · intro u
    simp [SendgridPlugin.FetchMetrics, hdo, hstatus, hbody]

/-- Instance of C3: status 429 with body `rate limited`. -/
theorem fetchMetrics_bad_status_witness :
    (∃ text : String,
      samplePlugin.FetchMetrics (worldWith ⟨429, .ok "rate limited"⟩ ([], none))
        = (none, some text)
      ∧ text = "Sendgrid returns status " ++ fmtD 429 ++ ": " ++ "rate limited"
      ∧ (fmtD 429).data <:+: text.data
      ∧ "rate limited".data <:+: text.data
      ∧ ∀ u : String → List SendgridStats × Option GoError,
          samplePlugin.FetchMetrics ⟨"0.0.1", sampleTime,
            fun _ => .ok ⟨429, .ok "rate limited"⟩, u⟩ = (none, some text))
    ∧ samplePlugin.FetchMetrics (worldWith ⟨429, .ok "rate limited"⟩ ([], none))
        = (none, some "Sendgrid returns status 429: rate limited")
    ∧ fmtD 429 = "429" :=
  ⟨fetchMetrics_bad_status samplePlugin (worldWith ⟨429, .ok "rate limited"⟩ ([], none))
      ⟨429, .ok "rate limited"⟩ "rate limited" rfl (by decide) rfl,
   by decide, by decide⟩

/-- Claim C4.  When the round trip answers with status 200, the body is read
and the decoder reports an error, `FetchMetrics` returns the nil map and that
error, whatever part of the array the decoder had filled in. -/
theorem fetchMetrics_decode_error (s : SendgridPlugin) (w : World) (resp : Response)
    (body : String) (filled : List SendgridStats) (err : GoError)
    (hdo : w.Do (newRequest w.version w.Now s) = .ok resp)
    (hstatus : resp.StatusCode = 200)
    (hbody : resp.Body = .ok body)
    (hdec : w.Unmarshal body = (filled, some err)) :
    s.FetchMetrics w = (none, some err) ∧ resultKeys (s.FetchMetrics w).1 = [] := by
  have h : s.FetchMetrics w = (none, some err) := by
    simp [SendgridPlugin.FetchMetrics, hdo, hstatus, hbody, hdec]
  rw [h]
  exact ⟨rfl, rfl⟩

/-- Instance of C4: the body `\x7bnot json`, and a decoder that had filled in a
first entry before it reported its error. -/
theorem fetchMetrics_decode_error_witness :
    samplePlugin.FetchMetrics
        (worldWith ⟨200, .ok "\x7bnot json"⟩
          ([⟨[⟨sampleMetrics⟩]⟩], some "invalid character 'n' looking for beginning of object key string"))
      = (none, some "invalid character 'n' looking for beginning of object key string")
    ∧ resultKeys (samplePlugin.FetchMetrics
        (worldWith ⟨200, .ok "\x7bnot json"⟩
          ([⟨[⟨sampleMetrics⟩]⟩], some "invalid character 'n' looking for beginning of object key string"))).1
      = [] :=
  fetchMetrics_decode_error samplePlugin
    (worldWith ⟨200, .ok "\x7bnot json"⟩
      ([⟨[⟨sampleMetrics⟩]⟩], some "invalid character 'n' looking for beginning of object key string"))
    ⟨200, .ok "\x7bnot json"⟩ "\x7bnot json" [⟨[⟨sampleMetrics⟩]⟩]
    "invalid character 'n' looking for beginning of object key string" rfl rfl rfl rfl

/-- Claim C10.  Two calls whose decoded responses both have a first element
with a non-empty stats list, and whose first stat entries hold the same metrics,
return maps with the same value at every key (the same map when the metrics are
visited in the same order), whatever the other days and the other entries of
the first day contain. -/
theorem fetchMetrics_only_first_entry (s₁ s₂ : SendgridPlugin) (w₁ w₂ : World)
    (resp₁ resp₂ : Response) (body₁ body₂ : String)
    (day₁ day₂ : SendgridStats) (days₁ days₂ : List SendgridStats)
    (stat₁ stat₂ : SendgridStat) (rest₁ rest₂ : List SendgridStat)
    (hdo₁ : w₁.Do (newRequest w₁.version w₁.Now s₁) = .ok resp₁)
    (hdo₂ : w₂.Do (newRequest w₂.version w₂.Now s₂) = .ok resp₂)
    (hstatus₁ : resp₁.StatusCode = 200) (hstatus₂ : resp₂.StatusCode = 200)
    (hbody₁ : resp₁.Body = .ok body₁) (hbody₂ : resp₂.Body = .ok body₂)
    (hdec₁ : w₁.Unmarshal body₁ = (day₁ :: days₁, none))
    (hdec₂ : w₂.Unmarshal body₂ = (day₂ :: days₂, none))
    (hday₁ : day₁.Stats = stat₁ :: rest₁) (hday₂ : day₂.Stats = stat₂ :: rest₂)
    (hagree : ∀ k, stat₁.Metrics.lookup k = stat₂.Metrics.lookup k) :
    ∃ m₁ m₂ : GoMap Float64,
      s₁.FetchMetrics w₁ = (some m₁, none) ∧ s₂.FetchMetrics w₂ = (some m₂, none)
      ∧ (∀ k, m₁.lookup k = m₂.lookup k)
      ∧ (∀ k, m₁.lookup k = (stat₁.Metrics.lookup k).map float64)
      ∧ (stat₁.Metrics = stat₂.Metrics → s₁.FetchMetrics w₁ = s₂.FetchMetrics w₂) := by
  have h₁ : s₁.FetchMetrics w₁ = (some (convert stat₁.Metrics), none) := by
    simp [SendgridPlugin.FetchMetrics, hdo₁, hstatus₁, hbody₁, hdec₁, hday₁]
  have h₂ : s₂.FetchMetrics w₂ = (some (convert stat₂.Metrics), none) := by
    simp [SendgridPlugin.FetchMetrics, hdo₂, hstatus₂, hbody₂, hdec₂, hday₂]
  refine ⟨convert stat₁.Metrics, convert stat₂.Metrics, h₁, h₂, ?_, lookup_convert _, ?_⟩
  · intro k
    rw [lookup_convert, lookup_convert, hagree k]
  · intro heq
    rw [h₁, h₂, heq]

/-- Instance of C10: a response with a second entry and a second day, and a
response with the first entry alone, its metrics visited in the other order. -/
theorem fetchMetrics_only_first_entry_witness :
    (∃ m₁ m₂ : GoMap Float64,
      samplePlugin.FetchMetrics
          (worldWith ⟨200, .ok "one"⟩
            ([⟨[⟨sampleMetrics⟩, ⟨AList.singleton "opens" 1⟩]⟩,
              ⟨[⟨AList.singleton "opens" 5⟩]⟩], none)) = (some m₁, none)
      ∧ samplePlugin.FetchMetrics
          (worldWith ⟨200, .ok "two"⟩ ([⟨[⟨sampleMetricsSwapped⟩]⟩], none)) = (some m₂, none)
      ∧ (∀ k, m₁.lookup k = m₂.lookup k)
      ∧ (∀ k, m₁.lookup k = (sampleMetrics.lookup k).map float64)
      ∧ (sampleMetrics = sampleMetricsSwapped →
          samplePlugin.FetchMetrics
            (worldWith ⟨200, .ok "one"⟩
              ([⟨[⟨sampleMetrics⟩, ⟨AList.singleton "opens" 1⟩]⟩,
                ⟨[⟨AList.singleton "opens" 5⟩]⟩], none))
          = samplePlugin.FetchMetrics
            (worldWith ⟨200, .ok "two"⟩ ([⟨[⟨sampleMetricsSwapped⟩]⟩], none))))
    ∧ (samplePlugin.FetchMetrics
          (worldWith ⟨200, .ok "one"⟩
            ([⟨[⟨sampleMetrics⟩, ⟨AList.singleton "opens" 1⟩]⟩,
              ⟨[⟨AList.singleton "opens" 5⟩]⟩], none))).1.map (AList.lookup "opens")
        = some (some ⟨42⟩) :=
  ⟨fetchMetrics_only_first_entry samplePlugin samplePlugin
      (worldWith ⟨200, .ok "one"⟩
        ([⟨[⟨sampleMetrics⟩, ⟨AList.singleton "opens" 1⟩]⟩,
          ⟨[⟨AList.singleton "opens" 5⟩]⟩], none))
      (worldWith ⟨200, .ok "two"⟩ ([⟨[⟨sampleMetricsSwapped⟩]⟩], none))
      ⟨200, .ok "one"⟩ ⟨200, .ok "two"⟩ "one" "two"
      ⟨[⟨sampleMetrics⟩, ⟨AList.singleton "opens" 1⟩]⟩ ⟨[⟨sampleMetricsSwapped⟩]⟩
      [⟨[⟨AList.singleton "opens" 5⟩]⟩] []
      ⟨sampleMetrics⟩ ⟨sampleMetricsSwapped⟩ [⟨AList.singleton "opens" 1⟩] []
      rfl rfl rfl rfl rfl rfl rfl rfl rfl rfl
      (fun _ => AList.perm_lookup (by decide)),
   by decide⟩

/-! ## Lemmas on the title caser -/

theorem cased_not_mid (c : AsciiChar) (h : isCased c = true) : isMid c = false := by
  cases hm : isMid c with
  | false => rfl
  | true =>
    exfalso
    simp only [isMid, Bool.or_eq_true, decide_eq_true_eq] at hm
    unfold isCased at h
    rcases hm with (hm | hm) | hm <;> rw [hm] at h <;> revert h <;> decide

theorem cased_not_break (c : AsciiChar) (h : isCased c = true) : isBreak c = false := by
  unfold isCased at h
  simp [isBreak, Char.isAlphanum, h]

theorem continuesWord_append (pre suf : List AsciiChar) :
    continuesWord (pre ++ suf) pre.length = continuesWord pre pre.length := by
  unfold continuesWord
  congr 1
  apply propext
  constructor
  · rintro ⟨j, hj, hc, hall⟩
    refine ⟨j, hj, ?_, ?_⟩
    · rwa [List.getD_append _ _ _ _ hj] at hc
    · intro k hk hjk
      have := hall k hk hjk
      rwa [List.getD_append _ _ _ _ hk, List.getD_append _ _ _ _ (by omega)] at this
  · rintro ⟨j, hj, hc, hall⟩
    refine ⟨j, hj, ?_, ?_⟩
    · rwa [List.getD_append _ _ _ _ hj]
    · intro k hk hjk
      rw [List.getD_append _ _ _ _ hk, List.getD_append _ _ _ _ (by omega)]
      exact hall k hk hjk

theorem continuesWord_snoc (pre : List AsciiChar) (c : AsciiChar) :
    continuesWord (pre ++ [c]) (pre.length + 1) =
      if isCased c = true then true
      else if isBreak c = true then false
      else if (isMid (pre.getD (pre.length - 1) space) && isMid c) = true then false
      else continuesWord pre pre.length := by
  have hlast : (pre ++ [c]).getD pre.length space = c := by
    rw [List.getD_append_right _ _ _ _ (le_refl _)]
    simp
  have hget : ∀ k, k < pre.length → (pre ++ [c]).getD k space = pre.getD k space :=
    fun k hk => List.getD_append _ _ _ _ hk
  by_cases hc : isCased c = true
  · rw [if_pos hc]
    unfold continuesWord
    rw [decide_eq_true_eq]
    refine ⟨pre.length, Nat.lt_succ_self _, by rw [hlast]; exact hc, ?_⟩
    intro k hk hjk
    omega
  · rw [if_neg hc]
    by_cases hb : isBreak c = true
    · rw [if_pos hb]
      unfold continuesWord
      rw [decide_eq_false_iff_not]
      rintro ⟨j, hj, hcj, hall⟩
      have hjn : j ≠ pre.length := by
        rintro rfl
        rw [hlast] at hcj
        exact hc hcj
      have := (hall pre.length (Nat.lt_succ_self _) (by omega)).1
      rw [hlast, hb] at this
      exact Bool.noConfusion this
    · rw [if_neg hb]
      have hb' : isBreak c = false := by simpa using hb
      by_cases hm : (isMid (pre.getD (pre.length - 1) space) && isMid c) = true
      · rw [if_pos hm]
        unfold continuesWord
        rw [decide_eq_false_iff_not]
        rintro ⟨j, hj, hcj, hall⟩
        have hjn : j ≠ pre.length := by
          rintro rfl
          rw [hlast] at hcj
          exact hc hcj
        have := (hall pre.length (Nat.lt_succ_self _) (by omega)).2
        rw [hlast, hget (pre.length - 1) (by omega)] at this
        rw [Bool.and_eq_true] at hm
        exact this hm
      · rw [if_neg hm]
        unfold continuesWord
        congr 1
        apply propext
        constructor
        · rintro ⟨j, hj, hcj, hall⟩
          have hjn : j ≠ pre.length := by
            rintro rfl
            rw [hlast] at hcj
            exact hc hcj
          have hj' : j < pre.length := by omega
          refine ⟨j, hj', by rwa [hget j hj'] at hcj, ?_⟩
          intro k hk hjk
          have := hall k (by omega) hjk
          rwa [hget k hk, hget (k - 1) (by omega)] at this
        · rintro ⟨j, hj, hcj, hall⟩
          refine ⟨j, by omega, by rwa [hget j hj], ?_⟩
          intro k hk hjk
          by_cases hkn : k = pre.length
          · subst hkn
            rw [hlast, hget (pre.length - 1) (by omega)]
            refine ⟨hb', ?_⟩
            rw [Bool.and_eq_true] at hm
            exact hm
          · have hk' : k < pre.length := by omega
            rw [hget k hk', hget (k - 1) (by omega)]
            exact hall k hk' hjk

theorem titleLoop_cons (a b : Bool) (c : AsciiChar) (cs : List AsciiChar) :
    titleLoop a b (c :: cs) =
      if isCased c = true then
        (if (if (b && isMid c) = true then false else a) = true then c.val.toLower
          else c.val.toUpper) :: titleLoop true (isMid c) cs
      else
        c.val :: titleLoop
          (if isBreak c = true then false else if (b && isMid c) = true then false else a)
          (isMid c) cs := by
  rw [titleLoop]

theorem titleLoop_eq (pre suf : List AsciiChar) :
    titleLoop (continuesWord pre pre.length) (isMid (pre.getD (pre.length - 1) space)) suf
      = (List.range suf.length).map
          (fun i => casedAt Char.toLower (pre ++ suf) (pre.length + i)) := by
  induction suf generalizing pre with
  | nil => rfl
  | cons c cs ih =>
    have hstep := continuesWord_snoc pre c
    have hwm : isMid ((pre ++ [c]).getD (pre.length + 1 - 1) space) = isMid c := by
      rw [Nat.add_sub_cancel, List.getD_append_right _ _ _ _ (le_refl _)]
      simp
    have hih := ih (pre ++ [c])
    rw [List.length_append, List.length_singleton, hstep, hwm, List.append_assoc,
      List.singleton_append] at hih
    have hhead : (pre ++ c :: cs).getD pre.length space = c := by
      rw [List.getD_append_right _ _ _ _ (le_refl _)]
      simp
    rw [List.length_cons, List.range_succ_eq_map, List.map_cons, List.map_map]
    have htail : (List.range cs.length).map
        ((fun i => casedAt Char.toLower (pre ++ c :: cs) (pre.length + i)) ∘ Nat.succ)
        = (List.range cs.length).map
          (fun i => casedAt Char.toLower (pre ++ c :: cs) (pre.length + 1 + i)) := by
      apply List.map_congr_left
      intro i _
      show casedAt _ _ (pre.length + (i + 1)) = casedAt _ _ (pre.length + 1 + i)
      rw [Nat.add_assoc, Nat.add_comm 1 i]
    rw [htail, ← hih, titleLoop_cons]
    simp only [Nat.add_zero]
    unfold casedAt
    rw [hhead, continuesWord_append]
    by_cases hc : isCased c = true
    · simp only [hc, if_true, cased_not_mid c hc, Bool.and_false, Bool.false_eq_true, if_false]
    · by_cases hb : isBreak c = true
      · simp only [hc, hb, if_true, Bool.false_eq_true, if_false]
      · by_cases hm : (isMid (pre.getD (pre.length - 1) space) && isMid c) = true
        · simp only [hc, hb, hm, if_true, Bool.false_eq_true, if_false]
        · simp only [hc, hb, hm, if_true, Bool.false_eq_true, if_false]

theorem titleASCII_eq (cs : List AsciiChar) : titleASCII cs = titleCaseWords cs := by
  have h := titleLoop_eq [] cs
  have h0 : continuesWord [] ([] : List AsciiChar).length = false := by decide
  have h1 : isMid (([] : List AsciiChar).getD (([] : List AsciiChar).length - 1) space)
      = false := by decide
  rw [h0, h1] at h
  unfold titleASCII titleCaseWords
  rw [h]
  simp

theorem titleCaseWords_of_lower (cs : List AsciiChar) (hl : ∀ c ∈ cs, c.val.toLower = c.val) :
    titleCaseWords cs = capitalizeWords cs := by
  unfold titleCaseWords capitalizeWords
  congr 1
  apply List.map_congr_left
  intro i hi
  have hlt : i < cs.length := List.mem_range.1 hi
  have hmem : cs.getD i space ∈ cs := by
    rw [List.getD_eq_getElem _ _ hlt]
    exact List.getElem_mem hlt
  unfold casedAt
  rw [hl _ hmem]
  rfl

theorem sampleCaser_agrees : agreesOnASCII sampleCaser := by
  intro p cs h
  simp only [sampleCaser, h]

/-! ## `GraphDefinition` -/

/-- Claim C5.  For every plugin value and every title caser, `GraphDefinition`
returns a map whose only key is `global`; the group has exactly fifteen metrics
with the names of the catalogue in its order, and the unit `mp.UnitInteger`;
the metrics and the unit are the same for every plugin value, and the label is
the title-cased prefix. -/
theorem graphDefinition_catalog (s : SendgridPlugin) (title : String → String) :
    (s.GraphDefinition title).keys = ["global"]
      ∧ ∃ g : Graphs, (s.GraphDefinition title).lookup "global" = some g
        ∧ g.Metrics.length = 15
        ∧ g.Metrics.map Metrics.Name =
            ["bounce_drops", "bounces", "clicks", "deferred", "delivered", "invalid_emails",
             "opens", "processed", "requests", "spam_report_drops", "spam_reports",
             "unique_clicks", "unique_opens", "unsubscribe_drops", "unsubscribes"]
        ∧ g.Unit = UnitInteger
        ∧ UnitInteger = "integer"
        ∧ g.Label = title s.Prefix
        ∧ ∀ (s2 : SendgridPlugin) (title2 : String → String),
            ∃ g2 : Graphs, (s2.GraphDefinition title2).lookup "global" = some g2
              ∧ g2.Metrics = g.Metrics ∧ g2.Unit = g.Unit := by
  refine ⟨rfl, _, rfl, rfl, rfl, rfl, rfl, rfl, ?_⟩
  intro s2 title2
  exact ⟨_, rfl, rfl, rfl⟩

/-- Claim C6 as stated fails.  With every caser that agrees with the library on
ASCII text the prefix `sendGrid` gets the label `Sendgrid`, while the prefix
with the first letter of each word capitalized is `SendGrid`; so with no such
caser is the label always the prefix with the first letter of each word
capitalized. -/
theorem label_not_capitalized_prefix :
    asciiText "sendGrid".data = some (codesOf "sendGrid")
      ∧ (∀ title, agreesOnASCII title → globalLabel ⟨"sendGrid", ""⟩ title = some "Sendgrid")
      ∧ capitalizeWords (codesOf "sendGrid") = "SendGrid"
      ∧ ¬ ∃ title, agreesOnASCII title ∧
          ∀ (s : SendgridPlugin) (cs : List AsciiChar),
            asciiText s.MetricKeyPrefix.data = some cs →
              globalLabel s title = some (capitalizeWords cs) := by
  have hcodes : asciiText "sendGrid".data = some (codesOf "sendGrid") := by decide
  have hlabel : ∀ title, agreesOnASCII title →
      globalLabel ⟨"sendGrid", ""⟩ title = some "Sendgrid" := by
    intro title htitle
    show some (title "sendGrid") = some "Sendgrid"
    rw [htitle "sendGrid" _ hcodes]
    decide
  refine ⟨hcodes, hlabel, by decide, ?_⟩
  rintro ⟨title, htitle, hall⟩
  have h1 := hall ⟨"sendGrid", ""⟩ (codesOf "sendGrid") hcodes
  rw [hlabel title htitle] at h1
  revert h1
  decide

/-- Claim C6, amended.  For every prefix of ASCII characters, and every caser
that agrees with the library on ASCII text, the label is the prefix title-cased:
the first letter of each word is in upper case, every other letter in lower
case, every other character as it is.  When the prefix has no upper-case letter
this is the prefix with the first letter of each word capitalized. -/
theorem label_title_cased (s : SendgridPlugin) (title : String → String)
    (cs : List AsciiChar) (htitle : agreesOnASCII title)
    (hascii : asciiText s.MetricKeyPrefix.data = some cs) :
    globalLabel s title = some (titleCaseWords cs)
      ∧ ((∀ c ∈ cs, c.val.toLower = c.val) →
          globalLabel s title = some (capitalizeWords cs)) := by
  have h : globalLabel s title = some (titleCaseWords cs) := by
    show some (title s.MetricKeyPrefix) = _
    rw [htitle _ cs hascii, titleASCII_eq]
  exact ⟨h, fun hl => by rw [h, titleCaseWords_of_lower cs hl]⟩

/-- Instances of C6: the prefixes `my sendgrid`, `sendgrid` and `sendGrid`. -/
theorem label_title_cased_witness :
    (globalLabel ⟨"my sendgrid", ""⟩ sampleCaser = some (titleCaseWords (codesOf "my sendgrid"))
      ∧ globalLabel ⟨"my sendgrid", ""⟩ sampleCaser
          = some (capitalizeWords (codesOf "my sendgrid")))
    ∧ titleCaseWords (codesOf "my sendgrid") = "My Sendgrid"
    ∧ capitalizeWords (codesOf "my sendgrid") = "My Sendgrid"
    ∧ titleCaseWords (codesOf "sendgrid") = "Sendgrid"
    ∧ titleCaseWords (codesOf "sendGrid") = "Sendgrid"
    ∧ globalLabel ⟨"my sendgrid", ""⟩ sampleCaser = some "My Sendgrid" :=
  ⟨⟨(label_title_cased ⟨"my sendgrid", ""⟩ sampleCaser (codesOf "my sendgrid")
        sampleCaser_agrees (by decide)).1,
     (label_title_cased ⟨"my sendgrid", ""⟩ sampleCaser (codesOf "my sendgrid")
        sampleCaser_agrees (by decide)).2 (by decide)⟩,
   by decide, by decide, by decide, by decide, by decide⟩

/-! ## The conversion to `float64` -/

theorem bitLenAux_le (fuel n k : Nat) (h : n < 2 ^ k) : bitLenAux fuel n ≤ k := by
  induction fuel generalizing n k with
  | zero => exact Nat.zero_le _
  | succ f ih =>
    unfold bitLenAux
    split
    · exact Nat.zero_le _
    · next hn =>
      cases k with
      | zero => simp at h; exact absurd h hn
      | succ k =>
        have h2 : n / 2 < 2 ^ k := by
          rw [Nat.div_lt_iff_lt_mul (by decide)]
          rw [Nat.pow_succ] at h
          exact h
        exact Nat.succ_le_succ (ih (n / 2) k h2)

theorem roundMagnitude_exact (n : Nat) (h : n ≤ 2 ^ 53) : roundMagnitude n = n := by
  rcases Nat.lt_or_eq_of_le h with hlt | heq
  · unfold roundMagnitude
    have hb : bitLen n ≤ 53 := bitLenAux_le 64 n 53 hlt
    rw [if_pos hb]
  · subst heq
    decide

theorem float64_exact (v : Int) (hlo : -(2 ^ 53) ≤ v) (hhi : v ≤ 2 ^ 53) :
    (float64 v).val = v := by
  unfold float64
  split
  · next hneg =>
    have hn : (-v).toNat ≤ 2 ^ 53 := by omega
    show -((roundMagnitude (-v).toNat : Nat) : Int) = v
    rw [roundMagnitude_exact _ hn]
    omega
  · next hpos =>
    have hn : v.toNat ≤ 2 ^ 53 := by omega
    show ((roundMagnitude v.toNat : Nat) : Int) = v
    rw [roundMagnitude_exact _ hn]
    omega

/-- Claim C9 as stated fails: the counter `2 ^ 53 + 1` fits in a 64-bit `int`,
its `float64` denotes `2 ^ 53`, and so it maps to the same output value as the
different counter `2 ^ 53`. -/
theorem float64_not_lossless :
    (-(2 : Int) ^ 63 ≤ 9007199254740993 ∧ (9007199254740993 : Int) < 2 ^ 63)
      ∧ (float64 9007199254740993).val = 9007199254740992
      ∧ (float64 9007199254740993).val ≠ 9007199254740993
      ∧ float64 9007199254740993 = float64 9007199254740992
      ∧ (convert (AList.singleton "requests" 9007199254740993)).lookup "requests"
          = (convert (AList.singleton "requests" 9007199254740992)).lookup "requests" := by
  decide

/-- Claim C9, amended.  For every counter `v` with `-2 ^ 53 ≤ v ≤ 2 ^ 53` the
`float64` that `FetchMetrics` stores denotes exactly `v`, so two distinct
counters in this range never map to the same output value. -/
theorem float64_lossless_in_range (v w : Int)
    (hv : -(2 ^ 53) ≤ v ∧ v ≤ 2 ^ 53) (hw : -(2 ^ 53) ≤ w ∧ w ≤ 2 ^ 53) :
    (float64 v).val = v ∧ (float64 v = float64 w → v = w) := by
  refine ⟨float64_exact v hv.1 hv.2, fun h => ?_⟩
  rw [← float64_exact v hv.1 hv.2, ← float64_exact w hw.1 hw.2, h]

/-- Instance of C9 at the ends of the range: `2 ^ 53` and `-2 ^ 53`. -/
theorem float64_lossless_in_range_witness :
    ((float64 9007199254740992).val = 9007199254740992
      ∧ (float64 9007199254740992 = float64 (-9007199254740992)
          → (9007199254740992 : Int) = -9007199254740992))
    ∧ (float64 (-9007199254740992)).val = -9007199254740992
    ∧ (float64 42).val = 42 :=
  ⟨float64_lossless_in_range 9007199254740992 (-9007199254740992)
      ⟨by decide, by decide⟩ ⟨by decide, by decide⟩,
   by decide, by decide⟩

/-! ## The calendar and the requested date -/

theorem yearDay_range (days : Int) :
    0 ≤ (yearDay days).2 ∧
      ((yearDay days).2 ≤ 364 ∨ ((yearDay days).2 = 365 ∧ isLeap (yearDay days).1 = true)) := by
  simp only [yearDay, isLeap, Bool.and_eq_true, Bool.or_eq_true, decide_eq_true_eq, ne_eq,
    decide_not, Bool.not_eq_true', decide_eq_false_iff_not]
  have hD : 0 ≤ (days + 719162) % 146097 ∧ (days + 719162) % 146097 < 146097 := by omega
  generalize (days + 719162) % 146097 = D at hD ⊢
  generalize (days + 719162) / 146097 = b
  have hc : 0 ≤ D / 36524 ∧ D / 36524 ≤ 4 ∧ 36524 * (D / 36524) ≤ D
      ∧ D < 36524 * (D / 36524) + 36524 := by omega
  generalize D / 36524 = c at hc ⊢
  obtain ⟨hc0, hc4, hc1, hc2⟩ := hc
  have hcc : 0 ≤ c / 4 ∧ c / 4 ≤ 1 ∧ 4 * (c / 4) ≤ c ∧ c < 4 * (c / 4) + 4 := by omega
  generalize c / 4 = c4 at hcc ⊢
  have he : 0 ≤ (D - 36524 * (c - c4)) / 1461 ∧ (D - 36524 * (c - c4)) / 1461 ≤ 24
      ∧ 1461 * ((D - 36524 * (c - c4)) / 1461) ≤ D - 36524 * (c - c4)
      ∧ D - 36524 * (c - c4) < 1461 * ((D - 36524 * (c - c4)) / 1461) + 1461 := by omega
  generalize (D - 36524 * (c - c4)) / 1461 = e at he ⊢
  have hf : 0 ≤ (D - 36524 * (c - c4) - 1461 * e) / 365
      ∧ (D - 36524 * (c - c4) - 1461 * e) / 365 ≤ 4
      ∧ 365 * ((D - 36524 * (c - c4) - 1461 * e) / 365) ≤ D - 36524 * (c - c4) - 1461 * e
      ∧ D - 36524 * (c - c4) - 1461 * e
          < 365 * ((D - 36524 * (c - c4) - 1461 * e) / 365) + 365 := by omega
  generalize (D - 36524 * (c - c4) - 1461 * e) / 365 = f at hf ⊢
  have hff : 0 ≤ f / 4 ∧ f / 4 ≤ 1 ∧ 4 * (f / 4) ≤ f ∧ f < 4 * (f / 4) + 4 := by omega
  generalize f / 4 = f4 at hff ⊢
  have hfc : f = 0 ∨ f = 1 ∨ f = 2 ∨ f = 3 ∨ f = 4 := by omega
  have hcc2 : c = 0 ∨ c = 1 ∨ c = 2 ∨ c = 3 ∨ c = 4 := by omega
  rcases hfc with rfl | rfl | rfl | rfl | rfl <;>
    rcases hcc2 with rfl | rfl | rfl | rfl | rfl <;> omega

set_option maxRecDepth 100000 in
theorem monthDay_range_fin :
    ∀ leap : Bool, ∀ y : Fin 366, (y.val ≤ 364 ∨ leap = true) →
      1 ≤ (monthDay leap y.val).1 ∧ (monthDay leap y.val).1 ≤ 12
        ∧ 1 ≤ (monthDay leap y.val).2 ∧ (monthDay leap y.val).2 ≤ 31 := by
  decide

theorem civil_range (days : Int) :
    1 ≤ (civil days).2.1 ∧ (civil days).2.1 ≤ 12
      ∧ 1 ≤ (civil days).2.2 ∧ (civil days).2.2 ≤ 31 := by
  obtain ⟨h0, h1⟩ := yearDay_range days
  have hlt : (yearDay days).2.toNat < 366 := by omega
  have hval : (((yearDay days).2.toNat : Nat) : Int) = (yearDay days).2 := by omega
  have h := monthDay_range_fin (isLeap (yearDay days).1) ⟨(yearDay days).2.toNat, hlt⟩
    (by
      rcases h1 with h | ⟨-, h⟩
      · left
        show (yearDay days).2.toNat ≤ 364
        omega
      · right
        exact h)
  simp only [hval] at h
  exact h

theorem add_day (t : Time) :
    (t.Add (-24 * Hour)).sec = t.sec - 86400 ∧ (t.Add (-24 * Hour)).loc = t.loc := by
  have h1 : Int.tdiv (-24 * Hour) 1000000000 = -86400 := by decide
  have h2 : Int.tmod (-24 * Hour) 1000000000 = 0 := by decide
  have h3 : (t.nsec.val : Int) < 1000000000 := by
    have := t.nsec.isLt
    omega
  have h4 : 0 ≤ (t.nsec.val : Int) := Int.ofNat_nonneg _
  unfold Time.Add
  simp only [h1, h2, add_zero]
  rw [if_neg (by omega), if_neg (by omega)]
  exact ⟨by ring, rfl⟩

/-- Claim C8 as stated fails.  At 23:30 on 2023-11-05 in New York, a day of 25
hours, the instant 24 hours earlier is 00:30 on the same calendar day, so the
date requested is the date of the call.  At 00:30 on 2023-03-13, after a day of
23 hours, the instant 24 hours earlier is 23:30 on 2023-03-11, two days before. -/
theorem requested_day_not_always_yesterday :
    (Time.mk 1699245000 0 newYork).Format = "2023-11-05"
      ∧ ((Time.mk 1699245000 0 newYork).Add (-24 * Hour)).Format = "2023-11-05"
      ∧ ((Time.mk 1699245000 0 newYork).Add (-24 * Hour)).localDay
          = (Time.mk 1699245000 0 newYork).localDay
      ∧ query (Time.mk 1699245000 0 newYork)
          = [("start_date", ["2023-11-05"]), ("end_date", ["2023-11-05"])]
      ∧ (Time.mk 1678681800 0 newYork).Format = "2023-03-13"
      ∧ ((Time.mk 1678681800 0 newYork).Add (-24 * Hour)).Format = "2023-03-11"
      ∧ ((Time.mk 1678681800 0 newYork).Add (-24 * Hour)).localDay
          = (Time.mk 1678681800 0 newYork).localDay - 2 := by
  decide

/-- Claim C8, amended.  When the offset of the location from UTC is the same at
the call time and 24 hours before it (as in every location with a fixed offset),
the date requested is the calendar day immediately before the date of the call:
its day number is one less, and its date is the date of that day. -/
theorem requested_day_is_yesterday (t : Time)
    (hoff : t.loc.offset (t.sec - 86400) = t.loc.offset t.sec) :
    (t.Add (-24 * Hour)).localDay = t.localDay - 1
      ∧ (t.Add (-24 * Hour)).Date = civil (t.localDay - 1) := by
  have h : (t.Add (-24 * Hour)).localDay = t.localDay - 1 := by
    unfold Time.localDay
    rw [(add_day t).1, (add_day t).2, hoff]
    omega
  exact ⟨h, by unfold Time.Date; rw [h]⟩

/-- Instance of C8 in UTC: a call at 2023-11-05T06:00:00Z requests 2023-11-04. -/
theorem requested_day_is_yesterday_witness :
    ((sampleTime.Add (-24 * Hour)).localDay = sampleTime.localDay - 1
      ∧ (sampleTime.Add (-24 * Hour)).Date = civil (sampleTime.localDay - 1))
    ∧ sampleTime.Format = "2023-11-05"
    ∧ (sampleTime.Add (-24 * Hour)).Format = "2023-11-04" :=
  ⟨requested_day_is_yesterday sampleTime rfl, by decide, by decide⟩

/-! ## The request -/

theorem digit_isDigit (n : Nat) : (digit n).isDigit = true := by
  have h : ∀ k : Fin 10, (Char.ofNat (48 + k.val)).isDigit = true := by decide
  exact h ⟨n % 10, Nat.mod_lt _ (by decide)⟩

theorem digit_isAlphanum (n : Nat) : (digit n).isAlphanum = true := by
  have h : ∀ k : Fin 10, (Char.ofNat (48 + k.val)).isAlphanum = true := by decide
  exact h ⟨n % 10, Nat.mod_lt _ (by decide)⟩

theorem appendInt_two (x : Int) (h0 : 0 ≤ x) (h : x < 100) :
    appendInt x 2 = [digit (x.toNat / 10), digit x.toNat] := by
  have hn : x.natAbs = x.toNat := by omega
  have hlt : x.toNat < 100 := by omega
  unfold appendInt
  simp only [hn, hlt, and_self, if_true, if_neg (not_lt.2 h0), List.nil_append]

theorem appendInt_four (x : Int) (h0 : 0 ≤ x) (h : x < 10000) :
    appendInt x 4 =
      [digit (x.toNat / 1000), digit (x.toNat / 100), digit (x.toNat / 10), digit x.toNat] := by
  have hn : x.natAbs = x.toNat := by omega
  have hlt : x.toNat < 10000 := by omega
  unfold appendInt
  simp [hn, hlt, not_lt.2 h0]

theorem format_in_range (t : Time) (h0 : 0 ≤ t.Date.1) (h1 : t.Date.1 ≤ 9999) :
    t.Format = renderYMD t.Date.1.toNat t.Date.2.1.toNat t.Date.2.2.toNat := by
  obtain ⟨hm1, hm2, hd1, hd2⟩ := civil_range t.localDay
  unfold Time.Format renderYMD
  show String.mk (appendInt t.Date.1 4 ++ Char.ofNat 45 :: appendInt t.Date.2.1 2
    ++ Char.ofNat 45 :: appendInt t.Date.2.2 2) = _
  rw [appendInt_four _ h0 (by omega), appendInt_two t.Date.2.1 (by unfold Time.Date; omega)
    (by unfold Time.Date; omega), appendInt_two t.Date.2.2 (by unfold Time.Date; omega)
    (by unfold Time.Date; omega)]
  rfl

theorem isYMD_renderYMD (y m d : Nat) : isYMD (renderYMD y m d) = true := by
  simp [isYMD, renderYMD, digit_isDigit]

theorem queryEscape_unreserved (l : List Char)
    (h : ∀ c ∈ l, c.isAlphanum = true ∨ c = Char.ofNat 45) :
    QueryEscape (String.mk l) = String.mk l := by
  unfold QueryEscape
  congr 1
  show l.flatMap _ = l
  induction l with
  | nil => rfl
  | cons c cs ih =>
    rw [List.flatMap_cons, ih (fun d hd => h d (List.mem_cons_of_mem c hd))]
    have hc := h c (List.mem_cons_self c cs)
    have : (c.isAlphanum = true ∨ c = Char.ofNat 45 ∨ c = Char.ofNat 95 ∨ c = Char.ofNat 46
        ∨ c = Char.ofNat 126) := by
      rcases hc with h | h
      · exact Or.inl h
      · exact Or.inr (Or.inl h)
    rw [if_pos this]
    rfl

theorem queryEscape_renderYMD (y m d : Nat) :
    QueryEscape (renderYMD y m d) = renderYMD y m d := by
  unfold renderYMD
  apply queryEscape_unreserved
  intro c hc
  simp only [List.mem_cons, List.mem_singleton, List.not_mem_nil, or_false] at hc
  rcases hc with h | h | h | h | h | h | h | h | h | h <;> subst h <;>
    first
    | exact Or.inl (digit_isAlphanum _)
    | exact Or.inr (by decide)


theorem query_eq (now : Time) :
    query now = [("start_date", [(now.Add (-24 * Hour)).Format]),
      ("end_date", [(now.Add (-24 * Hour)).Format])] := by
  simp [query, Values.Add]

theorem encode_dates (d : String) (hd : QueryEscape d = d) :
    Values.Encode [("start_date", [d]), ("end_date", [d])]
      = "end_date=" ++ d ++ "&start_date=" ++ d := by
  have h1 : stringLess "start_date".data "end_date".data = false := by decide
  have h2 : stringLess "end_date".data "start_date".data = true := by decide
  have h3 : QueryEscape "start_date" = "start_date" := by decide
  have h4 : QueryEscape "end_date" = "end_date" := by decide
  simp only [Values.Encode, List.insertionSort, List.orderedInsert, h1, h2, h3, h4, hd,
    if_true, if_false, List.flatMap_cons, List.flatMap_nil, List.map_cons, List.map_nil,
    List.append_nil, List.singleton_append, String.intercalate, String.intercalate.go]
  simp only [String.intercalate.go, String.append_assoc, Bool.true_eq_false, if_false,
    List.flatMap_cons, List.flatMap_nil, List.map_cons, List.map_nil, List.append_nil,
    List.singleton_append, h3, h4, hd]
  rw [show "end_date=" = "end_date" ++ "=" from by decide,
    show "&start_date=" = "&" ++ ("start_date" ++ "=") from by decide]
  simp only [String.append_assoc]



theorem url_dates (version : String) (now : Time) (s : SendgridPlugin) (d : String)
    (hq : query now = [("start_date", [d]), ("end_date", [d])]) (hd : QueryEscape d = d) :
    (newRequest version now s).URL = endpoint ++ "?end_date=" ++ d ++ "&start_date=" ++ d := by
  have hne : ("end_date=" ++ d ++ "&start_date=" ++ d = "") = False := by
    apply eq_false
    intro h
    have := congrArg String.length h
    simp only [String.length_append] at this
    have h8 : "end_date=".length = 9 := by decide
    have h0 : "".length = 0 := by decide
    omega
  simp only [newRequest, URL.String, hq, encode_dates d hd, hne, if_false, parsedEndpoint,
    endpoint]
  rw [show "https://api.sendgrid.com/v3/stats" = "https" ++ "://" ++ "api.sendgrid.com"
    ++ "/v3/stats" from by decide,
    show "?end_date=" = "?" ++ "end_date=" from by decide]
  simp only [String.append_assoc]

/-- Claim C7.  For every reading of the wall clock whose instant 24 hours
earlier lies in a year from 0 to 9999 of its location (a condition on the
surroundings: the system clock shows a year of four digits), the query of the
request has exactly the two parameters
`start_date` and `end_date`, each with the one value that is the date of that
instant as four digits of the year, two of the month and two of the day joined
by hyphens; the method is `GET` and the URL is the endpoint followed by the two
parameters. -/
theorem request_dates (version : String) (now : Time) (s : SendgridPlugin)
    (hy : 0 ≤ (now.Add (-24 * Hour)).Date.1 ∧ (now.Add (-24 * Hour)).Date.1 ≤ 9999) :
    query now = [("start_date", [(now.Add (-24 * Hour)).Format]),
        ("end_date", [(now.Add (-24 * Hour)).Format])]
      ∧ (now.Add (-24 * Hour)).Format
          = renderYMD (now.Add (-24 * Hour)).Date.1.toNat (now.Add (-24 * Hour)).Date.2.1.toNat
              (now.Add (-24 * Hour)).Date.2.2.toNat
      ∧ isYMD (now.Add (-24 * Hour)).Format = true
      ∧ (1 ≤ (now.Add (-24 * Hour)).Date.2.1 ∧ (now.Add (-24 * Hour)).Date.2.1 ≤ 12)
      ∧ (1 ≤ (now.Add (-24 * Hour)).Date.2.2 ∧ (now.Add (-24 * Hour)).Date.2.2 ≤ 31)
      ∧ (newRequest version now s).Method = "GET"
      ∧ (newRequest version now s).URL
          = endpoint ++ "?end_date=" ++ (now.Add (-24 * Hour)).Format
              ++ "&start_date=" ++ (now.Add (-24 * Hour)).Format := by
  have hf := format_in_range (now.Add (-24 * Hour)) hy.1 hy.2
  obtain ⟨hm1, hm2, hd1, hd2⟩ := civil_range (now.Add (-24 * Hour)).localDay
  have hesc : QueryEscape (now.Add (-24 * Hour)).Format = (now.Add (-24 * Hour)).Format := by
    rw [hf]
    exact queryEscape_renderYMD _ _ _
  refine ⟨query_eq now, hf, ?_, ⟨hm1, hm2⟩, ⟨hd1, hd2⟩, rfl,
    url_dates version now s _ (query_eq now) hesc⟩
  rw [hf]
  exact isYMD_renderYMD _ _ _

/-- Instance of C7: a call at 2023-11-05T06:00:00Z in UTC asks for 2023-11-04. -/
theorem request_dates_witness :
    (query sampleTime = [("start_date", [(sampleTime.Add (-24 * Hour)).Format]),
        ("end_date", [(sampleTime.Add (-24 * Hour)).Format])]
      ∧ (sampleTime.Add (-24 * Hour)).Format
          = renderYMD (sampleTime.Add (-24 * Hour)).Date.1.toNat
              (sampleTime.Add (-24 * Hour)).Date.2.1.toNat
              (sampleTime.Add (-24 * Hour)).Date.2.2.toNat
      ∧ isYMD (sampleTime.Add (-24 * Hour)).Format = true
      ∧ (1 ≤ (sampleTime.Add (-24 * Hour)).Date.2.1 ∧ (sampleTime.Add (-24 * Hour)).Date.2.1 ≤ 12)
      ∧ (1 ≤ (sampleTime.Add (-24 * Hour)).Date.2.2 ∧ (sampleTime.Add (-24 * Hour)).Date.2.2 ≤ 31)
      ∧ (newRequest "0.0.1" sampleTime samplePlugin).Method = "GET"
      ∧ (newRequest "0.0.1" sampleTime samplePlugin).URL
          = endpoint ++ "?end_date=" ++ (sampleTime.Add (-24 * Hour)).Format
              ++ "&start_date=" ++ (sampleTime.Add (-24 * Hour)).Format)
    ∧ (sampleTime.Add (-24 * Hour)).Format = "2023-11-04"
    ∧ (newRequest "0.0.1" sampleTime samplePlugin).URL
        = "https://api.sendgrid.com/v3/stats?end_date=2023-11-04&start_date=2023-11-04" :=
  ⟨request_dates "0.0.1" sampleTime samplePlugin ⟨by decide, by decide⟩, by decide, by decide⟩

end Sendgrid
